import Mathlib

/-!
Shallow embedding of the @digitalocean/webhook-sdk signature core
(SignatureScheme.ts, SignatureObject.ts, Signature.ts) and proofs about it.

Modelling conventions:
* JavaScript numbers that hold integers (timestamps, scheme versions,
  tolerances, clock readings) are modelled as `Int`; payload bytes as
  `List Nat`.
* JavaScript strings are Lean `String`s; the wire grammar works on
  `String.data` with an explicit single-character split (`String.split`
  in JS splits on every occurrence of the one-character separator).
* `parseInt(s, 10)` is modelled by `parseIntJS`: skip leading whitespace,
  optional sign, longest leading digit run, `none` for NaN.  JS number
  truthiness (`!x` false for `NaN` and `0`) is modelled explicitly.
* `crypto.timingSafeEqual(Buffer.from(a,"utf8"), Buffer.from(b,"utf8"))`
  throws when byte lengths differ, else compares bytes; since UTF-8
  encoding is injective, equal byte length plus byte equality is string
  equality.  `timingSafeEqualUtf8` returns `Except`, the `try/catch`
  wrappers turn the error into `false`.
* Exceptions become `Except String` with the exact `Error` message
  strings of the source: "signature has expired" (Expired),
  "payload not signed" (Unsigned), "no valid signature"
  (NoValidSignature), "missing timestamp" (MissingTimestamp),
  "timestamp cannot be specified multiple times" (DuplicateTimestamp),
  "timestamp must be an integer" (InvalidTimestamp),
  "invalid signature" (MalformedPair), "invalid signature format"
  (MalformedEntry), "signature scheme version must be an integer"
  (InvalidVersion), "invalid signature scheme version N" (UnknownScheme).
* The process-wide mutable `Schemes` registry becomes an explicit
  `Registry` value threaded to the operations that read it
  (`createSignature`, `parse`); `verify` does not read it in the source.
* Template interpolation of a number inside a string is modelled by
  `intToDecStr` (decimal rendering, `-` sign for negatives), written with
  explicit fuel so that it evaluates by kernel reduction.
-/

/-- JS whitespace characters relevant to parseInt (space, tab, LF, CR). -/
def jsWhitespaceChar (c : Char) : Bool :=
  c == ' ' || c == '\t' || c == '\n' || c == '\r'

/-- Value of the longest leading digit run, folded left as parseInt does;
stops at the first non-digit. -/
def digitsVal : List Char → Nat → Nat
  | [], acc => acc
  | c :: cs, acc => if c.isDigit then digitsVal cs (10 * acc + (c.toNat - 48)) else acc

/-- Longest leading digit run as a number; `none` when the first character
is not a digit (parseInt yields NaN then). -/
def leadingDigits : List Char → Option Nat
  | [] => none
  | c :: cs => if c.isDigit then some (digitsVal (c :: cs) 0) else none

/-- Model of JavaScript parseInt(s, 10): skip whitespace, optional sign,
longest leading digit run; `none` models NaN. -/
def parseIntJS (cs : List Char) : Option Int :=
  match cs.dropWhile jsWhitespaceChar with
  | [] => none
  | c :: rest =>
    if c = '-' then (leadingDigits rest).map (fun n => -(n : Int))
    else if c = '+' then (leadingDigits rest).map (fun n => (n : Int))
    else (leadingDigits (c :: rest)).map (fun n => (n : Int))

/-- JS truthiness of a possibly-undefined number: undefined and 0 are falsy. -/
def jsTruthyIntOpt : Option Int → Bool
  | none => false
  | some v => v != 0

/-- Model of JS String.prototype.split with a one-character separator:
always returns at least one (possibly empty) group. -/
def splitOnChar (sep : Char) : List Char → List (List Char)
  | [] => [[]]
  | c :: rest =>
    if c = sep then [] :: splitOnChar sep rest
    else
      match splitOnChar sep rest with
      | [] => [[c]]
      | g :: gs => (c :: g) :: gs

/-- Model of JS Array.prototype.join with a one-character separator. -/
def joinWith (sep : Char) : List (List Char) → List Char
  | [] => []
  | [g] => g
  | g :: gs => g ++ sep :: joinWith sep gs

/-- Model of JS String.prototype.replace with a one-character pattern and
empty replacement: removes the first occurrence only. -/
def removeFirstChar (c : Char) : List Char → List Char
  | [] => []
  | x :: xs => if x = c then xs else x :: removeFirstChar c xs

/-- Decimal digits of a natural number, most significant first; `fuel`
bounds the recursion so the definition evaluates by kernel reduction. -/
def natDigitsGo (fuel n : Nat) : List Char :=
  match fuel with
  | 0 => []
  | fuel2 + 1 =>
    if n < 10 then [Nat.digitChar n]
    else natDigitsGo fuel2 (n / 10) ++ [Nat.digitChar (n % 10)]

/-- Decimal digits of a natural number (`n < n + 1` always holds, so the
fuel never runs out). -/
def natToChars (n : Nat) : List Char := natDigitsGo (n + 1) n

/-- Characters produced when a JS integer is interpolated into a template
string. -/
def intToChars (i : Int) : List Char :=
  if i < 0 then '-' :: natToChars i.natAbs else natToChars i.natAbs

/-- String produced when a JS integer is interpolated into a template
string. -/
def intToDecStr (i : Int) : String := String.mk (intToChars i)

/-- Model of crypto.timingSafeEqual applied to the UTF-8 encodings of two
strings: throws when the byte lengths differ, otherwise reports byte
equality (equal lengths plus byte equality is string equality, UTF-8
being injective). -/
def timingSafeEqualUtf8 (a b : String) : Except String Bool :=
  if a.utf8ByteSize = b.utf8ByteSize then .ok (a == b)
  else .error "input buffers must have the same byte length"

/-- SignatureScheme.ts: interface SignatureScheme, a signing capability
with a fixed version.  The concrete v1 HMAC-SHA256 implementation lives
in Node's crypto library and is external to the model; schemes stay
abstract functions, as the interface allows. -/
structure SignatureScheme where
  sign : Int → List Nat → String → String
  version : Int

/-- The process-wide registry state: the `schemes` array of the `Schemes`
object in SignatureScheme.ts. -/
abbrev Registry := List SignatureScheme

/-- SignatureScheme.ts: Schemes.find. -/
def Schemes.find (registry : Registry) (version : Int) : Option SignatureScheme :=
  registry.find? (fun s => s.version == version)

/-- SignatureScheme.ts: Schemes.register (first registration wins). -/
def Schemes.register (registry : Registry) (scheme : SignatureScheme) : Registry :=
  match Schemes.find registry scheme.version with
  | some _ => registry
  | none => registry ++ [scheme]

/-- SignatureScheme.ts: Schemes.unregister. -/
def Schemes.unregister (registry : Registry) (version : Int) : Registry :=
  registry.filter (fun s => s.version != version)

/-- SignatureObject.ts: class SignatureObject (a signature entry). -/
structure SignatureObject where
  scheme : SignatureScheme
  value : String

/-- SignatureObject.ts: SignatureObject.createSignatureObject. -/
def SignatureObject.createSignatureObject (scheme : SignatureScheme) (timestamp : Int)
    (payload : List Nat) (secret : String) : SignatureObject :=
  ⟨scheme, scheme.sign timestamp payload secret⟩

/-- SignatureObject.ts: SignatureObject.parse.  The split on '=' must
give exactly two parts, the key must start with 'v', the first 'v' is
removed and the remainder parseInt-ed; a falsy (NaN or 0) version is
rejected, then the registry is consulted. -/
def SignatureObject.parse (registry : Registry) (value : String) : Except String SignatureObject :=
  match splitOnChar '=' value.data with
  | [versionStr, signature] =>
    match versionStr with
    | [] => .error "invalid signature format"
    | c :: _ =>
      if c ≠ 'v' then .error "invalid signature format"
      else
        match parseIntJS (removeFirstChar 'v' versionStr) with
        | none => .error "signature scheme version must be an integer"
        | some version =>
          if version = 0 then .error "signature scheme version must be an integer"
          else
            match Schemes.find registry version with
            | none => .error ( "invalid signature scheme version " ++ intToDecStr version)
            | some scheme => .ok ⟨scheme, String.mk signature⟩
  | _ => .error "invalid signature format"

/-- SignatureObject.ts: SignatureObject.equals — timing-safe comparison of
the two values, any comparison failure caught and reported as false. -/
def SignatureObject.equals (a b : SignatureObject) : Bool :=
  match timingSafeEqualUtf8 a.value b.value with
  | .ok r => r
  | .error _ => false

/-- SignatureObject.ts: SignatureObject.verify — recompute a fresh entry
and compare with equals.  The source's `if (!this.scheme) return false`
guard has no counterpart: `scheme` is non-nullable in the model. -/
def SignatureObject.verify (sig : SignatureObject) (payload : List Nat) (secret : String)
    (timestamp : Int) : Bool :=
  let freshSig := SignatureObject.createSignatureObject sig.scheme timestamp payload secret
  if ! SignatureObject.equals sig freshSig then false else true

/-- SignatureObject.ts: SignatureObject.toString, rendering v{version}={value}. -/
def SignatureObject.toString (sig : SignatureObject) : String :=
  String.mk ( 'v' :: intToChars sig.scheme.version ++ '=' :: sig.value.data)

/-- Signature.ts: DEFAULT_SIGNATURE_TOLERANCE (seconds). -/
def DEFAULT_SIGNATURE_TOLERANCE : Int := 300

/-- Signature.ts: CreateSignatureOptions.  `schemes = none` models an
absent field, defaulted to the full registry. -/
structure CreateSignatureOptions where
  timestamp : Int
  payload : List Nat
  secrets : List String
  schemes : Option (List SignatureScheme)

/-- Signature.ts: VerifySignatureOptions.  `now = none` models an absent
clock override (Date.now() is then read from the `dateNow` argument of
`Signature.verify`). -/
structure VerifySignatureOptions where
  tolerance : Option Int
  ignoreTolerance : Bool
  now : Option Int
  untrustedSchemes : Option (List SignatureScheme)

/-- Signature.ts: class Signature (the envelope: timestamp plus entries). -/
structure Signature where
  timestamp : Int
  signatureObjects : List SignatureObject

/-- Signature.ts: Signature.createSignature — one freshly signed entry per
scheme (outer loop) and secret (inner loop), pushed in that order. -/
def Signature.createSignature (registry : Registry) (params : CreateSignatureOptions) : Signature :=
  let schemes := params.schemes.getD registry
  ⟨params.timestamp,
    schemes.flatMap fun scheme =>
      params.secrets.map fun secret =>
        SignatureObject.createSignatureObject scheme params.timestamp params.payload secret⟩

/-- Signature.ts: body of the forEach loop of Signature.parse, acting on
one comma-separated pair; the state is the timestamp seen so far and the
entries collected so far.  `if (timestamp)` and `if (!ts)` are the JS
truthiness tests on numbers. -/
def Signature.parseStep (registry : Registry) (st : Option Int × List SignatureObject)
    (pair : List Char) : Except String (Option Int × List SignatureObject) :=
  match splitOnChar '=' pair with
  | [k, v] =>
    if k = [ 't' ] then
      if jsTruthyIntOpt st.1 then .error "timestamp cannot be specified multiple times"
      else
        match parseIntJS v with
        | none => .error "timestamp must be an integer"
        | some ts =>
          if ts = 0 then .error "timestamp must be an integer" else .ok (some ts, st.2)
    else
      match SignatureObject.parse registry (String.mk pair) with
      | .error e => .error e
      | .ok s => .ok (st.1, st.2 ++ [s])
  | _ => .error "invalid signature"

/-- Signature.ts: Signature.parse — split on ',', process every pair,
then fail with "missing timestamp" when the timestamp is still falsy. -/
def Signature.parse (registry : Registry) (value : String) : Except String Signature := do
  let st ← (splitOnChar ',' value.data).foldlM (Signature.parseStep registry) (none, [])
  match st.1 with
  | some ts => if ts = 0 then .error "missing timestamp" else .ok ⟨ts, st.2⟩
  | none => .error "missing timestamp"

/-- Signature.ts: the for-of loop of Signature.verify.  The inner
try/catch over untrustedSchemes amounts to: skip the entry when any
untrusted scheme has its version. -/
def Signature.verifyLoop (untrustedSchemes : List SignatureScheme) (payload : List Nat)
    (secret : String) (timestamp : Int) : List SignatureObject → Except String Unit
  | [] => .error "no valid signature"
  | sig :: rest =>
    if untrustedSchemes.any (fun scheme => scheme.version == sig.scheme.version) then
      Signature.verifyLoop untrustedSchemes payload secret timestamp rest
    else if SignatureObject.verify sig payload secret timestamp then
      .ok ()
    else
      Signature.verifyLoop untrustedSchemes payload secret timestamp rest

/-- Signature.ts: Signature.verify.  `dateNow` is the ambient Date.now()
reading, used only when no clock override is supplied. -/
def Signature.verify (sig : Signature) (payload : List Nat) (secret : String)
    (opts : VerifySignatureOptions) (dateNow : Int) : Except String Unit :=
  let now := opts.now.getD dateNow
  let tolerance := opts.tolerance.getD DEFAULT_SIGNATURE_TOLERANCE
  let untrustedSchemes := opts.untrustedSchemes.getD []
  if opts.ignoreTolerance = false ∧ now - sig.timestamp > tolerance * 1000 then
    .error "signature has expired"
  else if sig.signatureObjects.length = 0 then
    .error "payload not signed"
  else
    Signature.verifyLoop untrustedSchemes payload secret sig.timestamp sig.signatureObjects

/-- Signature.ts: Signature.toString — values.join(',') with the
timestamp pair first, then the entries in stored order. -/
def Signature.toString (sig : Signature) : String :=
  String.mk (joinWith ','
    (( 't' :: '=' :: intToChars sig.timestamp) ::
      sig.signatureObjects.map (fun s => (SignatureObject.toString s).data)))

/-- Signature.ts: Signature.equals — timing-safe comparison of the two
string renderings, any comparison failure caught and reported as false. -/
def Signature.equals (a b : Signature) : Bool :=
  match timingSafeEqualUtf8 (Signature.toString a) (Signature.toString b) with
  | .ok r => r
  | .error _ => false

/-- Signature.verify run in a world whose ambient global scheme registry
is `registry`: the method body of Signature.verify in Signature.ts never
reads the global Schemes object, so the ambient registry is passed but
unused. -/
def Signature.verifyInWorld (_registry : Registry) (sig : Signature) (payload : List Nat)
    (secret : String) (opts : VerifySignatureOptions) (dateNow : Int) : Except String Unit :=
  Signature.verify sig payload secret opts dateNow

/-- Concrete scheme of version 1 used in verification scenarios; its sign
function is deterministic in all three inputs, standing in for the
external HMAC-SHA256 implementation of SignatureSchemeV1. -/
def testSchemeV1 : SignatureScheme :=
  ⟨fun t _payload secret => intToDecStr t ++ "." ++ secret, 1⟩

/-- Concrete scheme of version 2, distinguishable from testSchemeV1. -/
def testSchemeTwo : SignatureScheme :=
  ⟨fun t _payload secret => "two." ++ intToDecStr t ++ "." ++ secret, 2⟩

/-- Concrete scheme of version 1 whose sign output contains a comma — a
legal SignatureScheme according to the interface. -/
def commaScheme : SignatureScheme :=
  ⟨fun _t _payload _secret => "a,b", 1⟩

/-! Helper lemmas about the JS primitives. -/

lemma digitChar_isDigit (n : Nat) (h : n < 10) : (Nat.digitChar n).isDigit = true := by
  interval_cases n <;> decide

lemma digitChar_toNat (n : Nat) (h : n < 10) : (Nat.digitChar n).toNat = 48 + n := by
  interval_cases n <;> decide

lemma ne_of_isDigit {c d : Char} (h : c.isDigit = true) (hd : d.isDigit = false) : c ≠ d := by
  intro he
  rw [he, hd] at h
  exact Bool.false_ne_true h

lemma jsWhitespaceChar_eq_false_of_isDigit {c : Char} (h : c.isDigit = true) :
    jsWhitespaceChar c = false := by
  have h1 : c ≠ ' ' := ne_of_isDigit h (by decide)
  have h2 : c ≠ '\t' := ne_of_isDigit h (by decide)
  have h3 : c ≠ '\n' := ne_of_isDigit h (by decide)
  have h4 : c ≠ '\r' := ne_of_isDigit h (by decide)
  simp [jsWhitespaceChar, h1, h2, h3, h4]

lemma natDigitsGo_isDigit : ∀ fuel n, n < fuel → ∀ c ∈ natDigitsGo fuel n, c.isDigit = true := by
  intro fuel
  induction fuel with
  | zero => intro n hn; omega
  | succ fuel2 ih =>
    intro n hn c hc
    rw [natDigitsGo] at hc
    by_cases h10 : n < 10
    · rw [if_pos h10] at hc
      simp only [List.mem_singleton] at hc
      rw [hc]
      exact digitChar_isDigit n h10
    · rw [if_neg h10] at hc
      rcases List.mem_append.mp hc with h | h
      · exact ih (n / 10) (by omega) c h
      · simp only [List.mem_singleton] at h
        rw [h]
        exact digitChar_isDigit (n % 10) (by omega)

lemma digitsVal_append (xs ys : List Char) (h : ∀ c ∈ xs, c.isDigit = true) :
    ∀ acc, digitsVal (xs ++ ys) acc = digitsVal ys (digitsVal xs acc) := by
  induction xs with
  | nil => intro acc; simp [digitsVal]
  | cons c cs ih =>
    intro acc
    have hc : c.isDigit = true := h c (List.mem_cons_self c cs)
    simp only [List.cons_append, digitsVal, hc, if_true]
    exact ih (fun d hd => h d (List.mem_cons_of_mem c hd)) _

lemma digitsVal_natDigitsGo :
    ∀ fuel n, n < fuel →
      ∀ acc, digitsVal (natDigitsGo fuel n) acc = acc * 10 ^ (natDigitsGo fuel n).length + n := by
  intro fuel
  induction fuel with
  | zero => intro n hn; omega
  | succ fuel2 ih =>
    intro n hn acc
    rw [natDigitsGo]
    by_cases h10 : n < 10
    · rw [if_pos h10]
      have hd : (Nat.digitChar n).isDigit = true := digitChar_isDigit n h10
      have ht : (Nat.digitChar n).toNat = 48 + n := digitChar_toNat n h10
      simp only [digitsVal, hd, if_true, ht, List.length_singleton, pow_one]
      omega
    · rw [if_neg h10]
      have hlt : n / 10 < fuel2 := by omega
      have hall : ∀ c ∈ natDigitsGo fuel2 (n / 10), c.isDigit = true :=
        natDigitsGo_isDigit fuel2 (n / 10) hlt
      rw [digitsVal_append _ _ hall]
      rw [ih (n / 10) hlt]
      have hd : (Nat.digitChar (n % 10)).isDigit = true := digitChar_isDigit (n % 10) (by omega)
      have ht : (Nat.digitChar (n % 10)).toNat = 48 + n % 10 := digitChar_toNat (n % 10) (by omega)
      simp only [digitsVal, hd, if_true, ht, List.length_append, List.length_singleton]
      have hpow : 10 ^ ((natDigitsGo fuel2 (n / 10)).length + 1)
          = 10 ^ (natDigitsGo fuel2 (n / 10)).length * 10 := pow_succ 10 _
      rw [hpow]
      have hmod : 10 * (n / 10) + n % 10 = n := Nat.div_add_mod n 10
      ring_nf
      omega

lemma natDigitsGo_ne_nil : ∀ fuel n, n < fuel → natDigitsGo fuel n ≠ [] := by
  intro fuel
  induction fuel with
  | zero => intro n hn; omega
  | succ fuel2 _ =>
    intro n hn
    rw [natDigitsGo]
    by_cases h10 : n < 10
    · rw [if_pos h10]; simp
    · rw [if_neg h10]; simp

lemma natToChars_isDigit (n : Nat) : ∀ c ∈ natToChars n, c.isDigit = true :=
  natDigitsGo_isDigit (n + 1) n (Nat.lt_succ_self n)

lemma leadingDigits_natToChars (n : Nat) : leadingDigits (natToChars n) = some n := by
  cases hsplit : natToChars n with
  | nil => exact absurd hsplit (natDigitsGo_ne_nil (n + 1) n (Nat.lt_succ_self n))
  | cons c cs =>
    have hc : c.isDigit = true := by
      apply natToChars_isDigit n
      rw [hsplit]
      exact List.mem_cons_self c cs
    have hval : digitsVal (natToChars n) 0 = n := by
      unfold natToChars
      rw [digitsVal_natDigitsGo (n + 1) n (Nat.lt_succ_self n)]
      omega
    rw [hsplit] at hval
    simp [leadingDigits, hc, hval]

lemma not_mem_natToChars {d : Char} (hd : d.isDigit = false) (n : Nat) : d ∉ natToChars n := by
  intro hm
  rw [natToChars_isDigit n d hm] at hd
  simp at hd

lemma parseIntJS_natToChars (n : Nat) : parseIntJS (natToChars n) = some (n : Int) := by
  cases hsplit : natToChars n with
  | nil => exact absurd hsplit (natDigitsGo_ne_nil (n + 1) n (Nat.lt_succ_self n))
  | cons c cs =>
    have hc : c.isDigit = true := by
      apply natToChars_isDigit n
      rw [hsplit]
      exact List.mem_cons_self c cs
    have hld : leadingDigits (c :: cs) = some n := by
      rw [← hsplit]; exact leadingDigits_natToChars n
    have hw : jsWhitespaceChar c = false := jsWhitespaceChar_eq_false_of_isDigit hc
    have hm : c ≠ '-' := ne_of_isDigit hc (by decide)
    have hp : c ≠ '+' := ne_of_isDigit hc (by decide)
    rw [parseIntJS, List.dropWhile_cons, hw]
    simp [if_neg hm, if_neg hp, hld]

lemma parseIntJS_intToChars (i : Int) : parseIntJS (intToChars i) = some i := by
  by_cases hneg : i < 0
  · have hw : jsWhitespaceChar '-' = false := by decide
    have hstep : parseIntJS ('-' :: natToChars i.natAbs) = some (-(i.natAbs : Int)) := by
      rw [parseIntJS, List.dropWhile_cons, hw]
      simp [leadingDigits_natToChars]
    rw [intToChars, if_pos hneg, hstep]
    simp only [Option.some.injEq]
    omega
  · rw [intToChars, if_neg hneg, parseIntJS_natToChars]
    simp only [Option.some.injEq]
    omega

lemma not_mem_intToChars {d : Char} (hd : d.isDigit = false) (hneg : d ≠ '-') (i : Int) :
    d ∉ intToChars i := by
  rw [intToChars]
  by_cases h : i < 0
  · rw [if_pos h]
    intro hm
    rcases List.mem_cons.mp hm with h2 | h2
    · exact hneg h2
    · exact not_mem_natToChars hd _ h2
  · rw [if_neg h]
    exact not_mem_natToChars hd _

lemma splitOnChar_of_not_mem {sep : Char} {g : List Char} (h : sep ∉ g) :
    splitOnChar sep g = [g] := by
  induction g with
  | nil => rfl
  | cons c cs ih =>
    have hc : c ≠ sep := fun he => h (he ▸ List.mem_cons_self c cs)
    have hcs : sep ∉ cs := fun hm => h (List.mem_cons_of_mem c hm)
    rw [splitOnChar, if_neg hc, ih hcs]

lemma splitOnChar_append_sep {sep : Char} {g : List Char} (rest : List Char) (h : sep ∉ g) :
    splitOnChar sep (g ++ sep :: rest) = g :: splitOnChar sep rest := by
  induction g with
  | nil => simp [splitOnChar]
  | cons c cs ih =>
    have hc : c ≠ sep := fun he => h (he ▸ List.mem_cons_self c cs)
    have hcs : sep ∉ cs := fun hm => h (List.mem_cons_of_mem c hm)
    rw [List.cons_append, splitOnChar, if_neg hc, ih hcs]

lemma splitOnChar_joinWith {sep : Char} {gs : List (List Char)} (h : ∀ g ∈ gs, sep ∉ g)
    (hne : gs ≠ []) : splitOnChar sep (joinWith sep gs) = gs := by
  induction gs with
  | nil => exact absurd rfl hne
  | cons g gs ih =>
    cases gs with
    | nil =>
      rw [joinWith]
      exact splitOnChar_of_not_mem (h g (List.mem_cons_self g []))
    | cons g2 gs2 =>
      have hjoin : joinWith sep (g :: g2 :: gs2) = g ++ sep :: joinWith sep (g2 :: gs2) := rfl
      rw [hjoin, splitOnChar_append_sep _ (h g (List.mem_cons_self g _))]
      rw [ih (fun x hx => h x (List.mem_cons_of_mem g hx)) (List.cons_ne_nil g2 gs2)]

lemma removeFirstChar_cons_self (c : Char) (xs : List Char) :
    removeFirstChar c (c :: xs) = xs := by
  simp [removeFirstChar]

lemma Schemes.find_version {registry : Registry} {v : Int} {s2 : SignatureScheme}
    (h : Schemes.find registry v = some s2) : s2.version = v := by
  have := List.find?_some h
  simpa using this

lemma Schemes.find_isSome_of_mem {registry : Registry} {s : SignatureScheme}
    (h : s ∈ registry) : ∃ s2, Schemes.find registry s.version = some s2 := by
  have hs : (Schemes.find registry s.version).isSome = true :=
    List.find?_isSome.mpr ⟨s, h, by simp⟩
  exact Option.isSome_iff_exists.mp hs

lemma SignatureObject.equals_eq_value (a b : SignatureObject) :
    SignatureObject.equals a b = (a.value == b.value) := by
  rw [SignatureObject.equals, timingSafeEqualUtf8]
  by_cases h : a.value.utf8ByteSize = b.value.utf8ByteSize
  · rw [if_pos h]
  · rw [if_neg h]
    have hne : a.value ≠ b.value := fun he => h (he ▸ rfl)
    rw [beq_eq_false_iff_ne.mpr hne]

lemma Signature.equals_eq_toString (a b : Signature) :
    Signature.equals a b = (Signature.toString a == Signature.toString b) := by
  rw [Signature.equals, timingSafeEqualUtf8]
  by_cases h : (Signature.toString a).utf8ByteSize = (Signature.toString b).utf8ByteSize
  · rw [if_pos h]
  · rw [if_neg h]
    have hne : Signature.toString a ≠ Signature.toString b := fun he => h (he ▸ rfl)
    rw [beq_eq_false_iff_ne.mpr hne]

lemma SignatureObject.verify_eq (sig : SignatureObject) (payload : List Nat) (secret : String)
    (timestamp : Int) :
    SignatureObject.verify sig payload secret timestamp
      = (sig.value == sig.scheme.sign timestamp payload secret) := by
  rw [SignatureObject.verify]
  simp only [SignatureObject.createSignatureObject, SignatureObject.equals_eq_value]
  cases h : (sig.value == sig.scheme.sign timestamp payload secret) <;> simp [h]

lemma Signature.verifyLoop_error {untrustedSchemes : List SignatureScheme} {payload : List Nat}
    {secret : String} {timestamp : Int} {l : List SignatureObject} {e : String}
    (h : Signature.verifyLoop untrustedSchemes payload secret timestamp l = .error e) :
    e = "no valid signature" := by
  induction l with
  | nil =>
    rw [Signature.verifyLoop] at h
    exact (Except.error.inj h).symm
  | cons sig rest ih =>
    rw [Signature.verifyLoop] at h
    by_cases hu : untrustedSchemes.any (fun scheme => scheme.version == sig.scheme.version) = true
    · rw [if_pos hu] at h
      exact ih h
    · rw [if_neg hu] at h
      by_cases hv : SignatureObject.verify sig payload secret timestamp = true
      · rw [if_pos hv] at h
        exact absurd h (by simp)
      · rw [if_neg hv] at h
        exact ih h

/-! Inversion and step lemmas for the parser. -/

lemma SignatureObject.parse_ok_split {registry : Registry} {value : String}
    {e : SignatureObject} (h : SignatureObject.parse registry value = .ok e) :
    ∃ rest sigchars, splitOnChar '=' value.data = [ 'v' :: rest, sigchars] := by
  rw [SignatureObject.parse] at h
  split at h
  case _ versionStr sigchars heq =>
    split at h
    · exact Except.noConfusion h
    case _ c cs =>
      split at h
      · exact Except.noConfusion h
      case _ hc =>
        have hcv : c = 'v' := not_not.mp hc
        subst hcv
        exact ⟨cs, sigchars, heq⟩
  case _ => exact Except.noConfusion h

lemma Signature.parseStep_entry (registry : Registry) (st : Option Int × List SignatureObject)
    (pair : List Char) (e : SignatureObject)
    (he : SignatureObject.parse registry (String.mk pair) = .ok e) :
    Signature.parseStep registry st pair = .ok (st.1, st.2 ++ [e]) := by
  obtain ⟨rest, sigchars, hsplit⟩ := SignatureObject.parse_ok_split he
  have hsplit2 : splitOnChar '=' pair = [ 'v' :: rest, sigchars] := hsplit
  have hk : ( 'v' :: rest) ≠ [ 't' ] := by
    intro hh
    injection hh with h1 _
    exact absurd h1 (by decide)
  simp only [Signature.parseStep, hsplit2, if_neg hk, he]

lemma foldlM_parseStep_entries (registry : Registry) :
    ∀ (pairs : List (List Char)) (acc : List SignatureObject),
      (∀ pair ∈ pairs, ∃ e, SignatureObject.parse registry (String.mk pair) = .ok e) →
      ∃ sigs, pairs.foldlM (Signature.parseStep registry) ((none : Option Int), acc)
          = Except.ok ((none : Option Int), sigs) := by
  intro pairs
  induction pairs with
  | nil => intro acc _; exact ⟨acc, rfl⟩
  | cons p ps ih =>
    intro acc h
    obtain ⟨e, he⟩ := h p (List.mem_cons_self p ps)
    have hstep := Signature.parseStep_entry registry (none, acc) p e he
    rw [List.foldlM_cons, hstep]
    exact ih (acc ++ [e]) (fun q hq => h q (List.mem_cons_of_mem p hq))

/-- Claim C5 (counterexample): parsing the string v999=abc does not fail
with MissingTimestamp as claimed; it fails with UnknownScheme — entry
parsing raises before the end-of-loop timestamp check runs. -/
theorem Signature.parse_v999_counterexample :
    Signature.parse [testSchemeV1] "v999=abc"
        = Except.error ( "invalid signature scheme version 999")
    ∧ ( "invalid signature scheme version 999" : String) ≠ "missing timestamp" :=
  ⟨rfl, by decide⟩

/-- Claim C5 (amended): a header string with no t pair fails with
MissingTimestamp provided every comma-separated pair parses successfully
as an entry (successful entry parsing forces the key to start with v, so
no pair is a t pair); a pair that fails entry parsing makes parse fail
with that entry error instead, as the counterexample shows. -/
theorem Signature.parse_missing_timestamp (registry : Registry) (value : String)
    (h : ∀ pair ∈ splitOnChar ',' value.data,
        ∃ e, SignatureObject.parse registry (String.mk pair) = .ok e) :
    Signature.parse registry value = .error "missing timestamp" := by
  obtain ⟨sigs, hfold⟩ :=
    foldlM_parseStep_entries registry (splitOnChar ',' value.data) [] h
  rw [Signature.parse, hfold]
  rfl

/-- Claim C5 (witness): a concrete all-entries header with no t pair
fails with MissingTimestamp. -/
theorem Signature.parse_missing_timestamp_witness :
    Signature.parse [testSchemeV1] "v1=abc" = .error "missing timestamp" := by
  apply Signature.parse_missing_timestamp
  intro pair hpair
  have hp : pair = ( 'v' :: '1' :: '=' :: 'a' :: 'b' :: 'c' :: []) := by
    have : splitOnChar ',' ( "v1=abc" : String).data
        = [ ( 'v' :: '1' :: '=' :: 'a' :: 'b' :: 'c' :: [])] := by decide
    rw [this] at hpair
    simpa using hpair
  subst hp
  exact ⟨⟨testSchemeV1, "abc"⟩, rfl⟩

/-- Claim C7 (counterexample): the wire string t=-5 parses successfully
into an envelope with the strictly negative timestamp -5, violating the
claimed strictly-positive invariant. -/
theorem Signature.parse_negative_timestamp_counterexample :
    Signature.parse [] "t=-5" = Except.ok ⟨-5, []⟩ ∧ (-5 : Int) < 0 :=
  ⟨rfl, by decide⟩

/-- Claim C7 (amended): every successfully parsed envelope has a nonzero
integer timestamp (parse rejects a falsy parseInt result, but accepts
negative values; createSignature performs no timestamp validation at
all). -/
theorem Signature.parse_timestamp_nonzero (registry : Registry) (value : String)
    (env : Signature) (h : Signature.parse registry value = .ok env) :
    env.timestamp ≠ 0 := by
  rw [Signature.parse] at h
  cases hfold : (splitOnChar ',' value.data).foldlM (Signature.parseStep registry)
      ((none : Option Int), ([] : List SignatureObject)) with
  | error e =>
    rw [hfold] at h
    exact Except.noConfusion h
  | ok st =>
    rw [hfold] at h
    have h2 : (match st.1 with
        | some ts =>
          if ts = 0 then Except.error "missing timestamp"
          else (Except.ok ⟨ts, st.2⟩ : Except String Signature)
        | none => (Except.error "missing timestamp" : Except String Signature)) = .ok env := h
    cases hts : st.1 with
    | none =>
      rw [hts] at h2
      exact Except.noConfusion h2
    | some ts =>
      rw [hts] at h2
      have h3 : (if ts = 0 then Except.error "missing timestamp"
          else (Except.ok ⟨ts, st.2⟩ : Except String Signature)) = .ok env := h2
      by_cases hz : ts = 0
      · rw [if_pos hz] at h3
        exact Except.noConfusion h3
      · rw [if_neg hz] at h3
        have henv : env = ⟨ts, st.2⟩ := (Except.ok.inj h3).symm
        rw [henv]
        exact hz

/-- Claim C7 (witness): the amended nonzero-timestamp invariant at the
concrete successful parse of t=7. -/
theorem Signature.parse_timestamp_nonzero_witness :
    (Signature.mk 7 [] : Signature).timestamp ≠ 0 :=
  Signature.parse_timestamp_nonzero [] "t=7" ⟨7, []⟩ rfl

/-- Claim C6 (counterexample): the entry key v1x has a non-numeric
remainder 1x after the leading v, yet entry parsing succeeds (JS parseInt
truncates at the first non-digit and yields 1), instead of failing with
InvalidVersion as claimed. -/
theorem SignatureObject.parse_nonnumeric_version_counterexample :
    SignatureObject.parse [testSchemeV1] "v1x=abc" = Except.ok ⟨testSchemeV1, "abc"⟩
    ∧ 'x' ∈ ( "1x" : String).data ∧ ('x').isDigit = false :=
  ⟨rfl, by decide, by decide⟩

/-- Claim C6 (amended): for an entry key=value pair whose key starts with
v, entry parsing fails with InvalidVersion exactly when JS parseInt of
the remainder is NaN or 0; any nonzero parseInt result — including
negative versions and keys with trailing garbage after leading digits —
proceeds to the registry lookup, whose absence fails with
UnknownScheme. -/
theorem SignatureObject.parse_version_semantics (registry : Registry) (value : String)
    (rest sigchars : List Char)
    (hsplit : splitOnChar '=' value.data = [ 'v' :: rest, sigchars]) :
    ((parseIntJS rest = none ∨ parseIntJS rest = some 0) →
        SignatureObject.parse registry value
          = .error "signature scheme version must be an integer")
    ∧ (∀ version, parseIntJS rest = some version → version ≠ 0 →
        SignatureObject.parse registry value
          = (match Schemes.find registry version with
             | some scheme => Except.ok ⟨scheme, String.mk sigchars⟩
             | none => Except.error ( "invalid signature scheme version " ++ intToDecStr version))) := by
  have hred : SignatureObject.parse registry value
      = (match parseIntJS rest with
         | none => .error "signature scheme version must be an integer"
         | some version =>
           if version = 0 then .error "signature scheme version must be an integer"
           else
             match Schemes.find registry version with
             | none => .error ( "invalid signature scheme version " ++ intToDecStr version)
             | some scheme => .ok ⟨scheme, String.mk sigchars⟩) := by
    rw [SignatureObject.parse, hsplit]
    have hrm : removeFirstChar 'v' ( 'v' :: rest) = rest := removeFirstChar_cons_self 'v' rest
    simp only [hrm, ne_eq, not_true_eq_false, if_false, reduceIte]
  constructor
  · intro hna
    rcases hna with hna | hna
    · rw [hred, hna]
    · rw [hred, hna]
      rfl
  · intro version hv hvz
    rw [hred, hv]
    show (if version = 0 then
        (Except.error "signature scheme version must be an integer" : Except String SignatureObject)
      else
        match Schemes.find registry version with
        | none => .error ( "invalid signature scheme version " ++ intToDecStr version)
        | some scheme => .ok ⟨scheme, String.mk sigchars⟩)
      = _
    rw [if_neg hvz]
    cases hfind : Schemes.find registry version <;> rfl

/-- Claim C6 (witness): the key v-2 parseInts to the nonzero version -2,
reaches the registry lookup and fails with UnknownScheme, not
InvalidVersion. -/
theorem SignatureObject.parse_version_semantics_witness :
    SignatureObject.parse [testSchemeV1] "v-2=abc"
      = Except.error ( "invalid signature scheme version -2") :=
  (SignatureObject.parse_version_semantics [testSchemeV1] "v-2=abc"
      ( '-' :: '2' :: []) ( 'a' :: 'b' :: 'c' :: []) (by decide)).2 (-2) (by decide) (by decide)

/-- Claim C2 (counterexample): with a caller-supplied negative tolerance
(-1 second), an envelope whose timestamp lies in the future (age
500 - 1000 = -500 ms, strictly negative) is rejected with Expired,
contradicting the claim that a negative age is never rejected by this
check. -/
theorem Signature.verify_negative_age_expired_counterexample :
    Signature.verify ⟨1000, [⟨testSchemeV1, "x"⟩]⟩ [] "s" ⟨some (-1), false, some 500, none⟩ 0
        = Except.error "signature has expired"
    ∧ (500 : Int) - 1000 < 0 :=
  ⟨rfl, by decide⟩

/-- Claim C2 (amended): verify fails with Expired exactly when
ignoreTolerance is unset and now - timestamp > tolerance * 1000 with the
tolerance defaulting to 300 seconds; equality at the boundary does not
fail, and — provided the effective tolerance is nonnegative — a negative
age (timestamp in the future) is never rejected by this check. -/
theorem Signature.verify_expired_iff (sig : Signature) (payload : List Nat) (secret : String)
    (opts : VerifySignatureOptions) (dateNow : Int) :
    (Signature.verify sig payload secret opts dateNow = .error "signature has expired"
       ↔ opts.ignoreTolerance = false
           ∧ opts.now.getD dateNow - sig.timestamp > opts.tolerance.getD 300 * 1000)
    ∧ (opts.now.getD dateNow - sig.timestamp = opts.tolerance.getD 300 * 1000 →
         Signature.verify sig payload secret opts dateNow ≠ .error "signature has expired")
    ∧ (0 ≤ opts.tolerance.getD 300 → opts.now.getD dateNow - sig.timestamp < 0 →
         Signature.verify sig payload secret opts dateNow ≠ .error "signature has expired") := by
  have hdef : DEFAULT_SIGNATURE_TOLERANCE = 300 := rfl
  have hiff : Signature.verify sig payload secret opts dateNow = .error "signature has expired"
      ↔ opts.ignoreTolerance = false
          ∧ opts.now.getD dateNow - sig.timestamp > opts.tolerance.getD 300 * 1000 := by
    rw [Signature.verify, hdef]
    constructor
    · intro h
      by_cases hcond : opts.ignoreTolerance = false
          ∧ opts.now.getD dateNow - sig.timestamp > opts.tolerance.getD 300 * 1000
      · exact hcond
      · rw [if_neg hcond] at h
        by_cases hempty : sig.signatureObjects.length = 0
        · rw [if_pos hempty] at h
          have := Except.error.inj h
          exact absurd this (by decide)
        · rw [if_neg hempty] at h
          have := Signature.verifyLoop_error h
          exact absurd this (by decide)
    · intro hcond
      rw [if_pos hcond]
  refine ⟨hiff, ?_, ?_⟩
  · intro heq hv
    have := (hiff.mp hv).2
    omega
  · intro htolnn hage hv
    have := (hiff.mp hv).2
    have h1000 : (0 : Int) ≤ opts.tolerance.getD 300 * 1000 :=
      mul_nonneg htolnn (by norm_num)
    omega

/-- Claim C2 (witness): the Expired condition instantiated at a concrete
expired envelope (age 301001 ms exceeds the default 300000 ms window). -/
theorem Signature.verify_expired_iff_witness :
    Signature.verify ⟨1000, []⟩ [] "s" ⟨none, false, some 302001, none⟩ 0
        = Except.error "signature has expired" :=
  (Signature.verify_expired_iff ⟨1000, []⟩ [] "s" ⟨none, false, some 302001, none⟩ 0).1.mpr
    (by decide)

/-- Claim C9: Entry.equals and Envelope.equals are total boolean
predicates: each coincides with plain equality of the compared strings,
and in particular a byte-length mismatch yields false (the comparison
failure of the underlying timing-safe primitive is swallowed), never an
exception. -/
theorem equals_total_nonthrowing (a b : SignatureObject) (e1 e2 : Signature) :
    (SignatureObject.equals a b = (a.value == b.value))
    ∧ (a.value.utf8ByteSize ≠ b.value.utf8ByteSize → SignatureObject.equals a b = false)
    ∧ (Signature.equals e1 e2 = (Signature.toString e1 == Signature.toString e2))
    ∧ ((Signature.toString e1).utf8ByteSize ≠ (Signature.toString e2).utf8ByteSize →
        Signature.equals e1 e2 = false) := by
  refine ⟨SignatureObject.equals_eq_value a b, ?_, Signature.equals_eq_toString e1 e2, ?_⟩
  · intro h
    rw [SignatureObject.equals_eq_value a b]
    exact beq_eq_false_iff_ne.mpr (fun he => h (he ▸ rfl))
  · intro h
    rw [Signature.equals_eq_toString e1 e2]
    exact beq_eq_false_iff_ne.mpr (fun he => h (he ▸ rfl))

/-- Claim C9 (witness): the length-mismatch clause at concrete entries
whose values have different byte lengths. -/
theorem equals_total_nonthrowing_witness :
    SignatureObject.equals ⟨testSchemeV1, "ab"⟩ ⟨testSchemeV1, "a"⟩ = false :=
  (equals_total_nonthrowing ⟨testSchemeV1, "ab"⟩ ⟨testSchemeV1, "a"⟩ ⟨1, []⟩ ⟨1, []⟩).2.1
    (by decide)

/-- Claim C10: the outcome of verify on an already-constructed envelope
is independent of the scheme registry state: running verify in any two
registry worlds — in particular before and after unregistering any
version — produces identical results, because the method body never
consults the registry. -/
theorem Signature.verify_registry_independent (reg1 reg2 : Registry) (sig : Signature)
    (payload : List Nat) (secret : String) (opts : VerifySignatureOptions) (dateNow : Int) :
    (Signature.verifyInWorld reg1 sig payload secret opts dateNow
        = Signature.verifyInWorld reg2 sig payload secret opts dateNow)
    ∧ ∀ v, Signature.verifyInWorld (Schemes.unregister reg1 v) sig payload secret opts dateNow
        = Signature.verifyInWorld reg1 sig payload secret opts dateNow :=
  ⟨rfl, fun _ => rfl⟩

lemma Signature.verifyLoop_head_match {untrusted : List SignatureScheme} {payload : List Nat}
    {secret : String} {t : Int} {s : SignatureObject} (rest : List SignatureObject)
    (hu : ∀ u ∈ untrusted, u.version ≠ s.scheme.version)
    (hv : s.value = s.scheme.sign t payload secret) :
    Signature.verifyLoop untrusted payload secret t (s :: rest) = .ok () := by
  have hany : untrusted.any (fun scheme => scheme.version == s.scheme.version) = false := by
    rw [List.any_eq_false]
    intro u hu2
    simp [hu u hu2]
  have hver : SignatureObject.verify s payload secret t = true := by
    rw [SignatureObject.verify_eq, hv]
    exact beq_self_eq_true _
  rw [Signature.verifyLoop, if_neg (by simp [hany]), if_pos hver]

lemma Signature.verifyLoop_of_exists {untrusted : List SignatureScheme} {payload : List Nat}
    {secret : String} {t : Int} :
    ∀ l : List SignatureObject,
      (∃ s ∈ l, (∀ u ∈ untrusted, u.version ≠ s.scheme.version)
          ∧ s.value = s.scheme.sign t payload secret) →
      Signature.verifyLoop untrusted payload secret t l = .ok () := by
  intro l
  induction l with
  | nil =>
    rintro ⟨s, hs, -, -⟩
    exact absurd hs (List.not_mem_nil s)
  | cons a rest ih =>
    rintro ⟨s, hs, hu, hv⟩
    rcases List.mem_cons.mp hs with heq | hmem
    · subst heq
      exact Signature.verifyLoop_head_match rest hu hv
    · rw [Signature.verifyLoop]
      by_cases hany : untrusted.any (fun scheme => scheme.version == a.scheme.version) = true
      · rw [if_pos hany]
        exact ih ⟨s, hmem, hu, hv⟩
      · rw [if_neg hany]
        by_cases hva : SignatureObject.verify a payload secret t = true
        · rw [if_pos hva]
        · rw [if_neg hva]
          exact ih ⟨s, hmem, hu, hv⟩

lemma Signature.verifyLoop_skip {untrusted : List SignatureScheme} {payload : List Nat}
    {secret : String} {t : Int} {u : SignatureObject} (rest : List SignatureObject)
    (hu : ∃ w ∈ untrusted, w.version = u.scheme.version) :
    Signature.verifyLoop untrusted payload secret t (u :: rest)
      = Signature.verifyLoop untrusted payload secret t rest := by
  have hany : untrusted.any (fun scheme => scheme.version == u.scheme.version) = true := by
    rcases hu with ⟨w, hw, he⟩
    exact List.any_eq_true.mpr ⟨w, hw, by simp [he]⟩
  rw [Signature.verifyLoop, if_pos hany]

lemma Signature.verifyLoop_no_match {untrusted : List SignatureScheme} {payload : List Nat}
    {secret : String} {t : Int} :
    ∀ l : List SignatureObject,
      (∀ s ∈ l, (∀ u ∈ untrusted, u.version ≠ s.scheme.version) →
          s.value ≠ s.scheme.sign t payload secret) →
      Signature.verifyLoop untrusted payload secret t l = .error "no valid signature" := by
  intro l
  induction l with
  | nil => intro _; rfl
  | cons a rest ih =>
    intro h
    rw [Signature.verifyLoop]
    by_cases hany : untrusted.any (fun scheme => scheme.version == a.scheme.version) = true
    · rw [if_pos hany]
      exact ih (fun s hs => h s (List.mem_cons_of_mem a hs))
    · rw [if_neg hany]
      have htrusted : ∀ u ∈ untrusted, u.version ≠ a.scheme.version := by
        intro u hu2
        have := List.any_eq_false.mp (Bool.eq_false_iff.mpr hany) u hu2
        simpa using this
      have hne : a.value ≠ a.scheme.sign t payload secret :=
        h a (List.mem_cons_self a rest) htrusted
      have hva : SignatureObject.verify a payload secret t = false := by
        rw [SignatureObject.verify_eq]
        exact beq_eq_false_iff_ne.mpr hne
      rw [if_neg (by simp [hva]), ih (fun s hs => h s (List.mem_cons_of_mem a hs))]

/-- Claim C1: when the tolerance check passes and the entry list is
nonempty, verify succeeds as soon as some entry whose scheme version is
not untrusted recomputes under (payload, secret, timestamp) to its
stored value, whatever all the other entries contain; moreover the scan
succeeds at the first such entry: a trusted matching head yields success
whatever the remaining entries are. -/
theorem Signature.verify_ok_of_matching_entry (sig : Signature) (payload : List Nat)
    (secret : String) (opts : VerifySignatureOptions) (dateNow : Int)
    (htol : ¬ (opts.ignoreTolerance = false
        ∧ opts.now.getD dateNow - sig.timestamp > opts.tolerance.getD 300 * 1000))
    (hne : sig.signatureObjects ≠ [])
    (hmatch : ∃ s ∈ sig.signatureObjects,
        (∀ u ∈ opts.untrustedSchemes.getD [], u.version ≠ s.scheme.version)
        ∧ s.value = s.scheme.sign sig.timestamp payload secret) :
    Signature.verify sig payload secret opts dateNow = Except.ok ()
    ∧ ∀ (s : SignatureObject) (rest : List SignatureObject),
        (∀ u ∈ opts.untrustedSchemes.getD [], u.version ≠ s.scheme.version) →
        s.value = s.scheme.sign sig.timestamp payload secret →
        Signature.verifyLoop (opts.untrustedSchemes.getD []) payload secret sig.timestamp
            (s :: rest) = Except.ok () := by
  constructor
  · rw [Signature.verify]
    have hdef : DEFAULT_SIGNATURE_TOLERANCE = 300 := rfl
    rw [hdef, if_neg htol, if_neg (by simpa using hne)]
    exact Signature.verifyLoop_of_exists sig.signatureObjects hmatch
  · intro s rest hu hv
    exact Signature.verifyLoop_head_match rest hu hv

/-- Claim C1 (witness): a concrete envelope whose first entry was signed
with a wrong secret and whose second entry matches verifies
successfully. -/
theorem Signature.verify_ok_of_matching_entry_witness :
    Signature.verify ⟨100, [⟨testSchemeV1, "bad"⟩, ⟨testSchemeV1, "100.sec"⟩]⟩ [] "sec"
        ⟨none, true, none, some [testSchemeTwo]⟩ 0 = Except.ok () :=
  (Signature.verify_ok_of_matching_entry
      ⟨100, [⟨testSchemeV1, "bad"⟩, ⟨testSchemeV1, "100.sec"⟩]⟩ [] "sec"
      ⟨none, true, none, some [testSchemeTwo]⟩ 0
      (by simp)
      (by simp)
      ⟨⟨testSchemeV1, "100.sec"⟩, by simp, by decide, by decide⟩).1

/-- Claim C8: when the tolerance check passes, an entry with an untrusted
scheme version is skipped without aborting the scan (skipping it leaves
the loop result unchanged); if no trusted entry matches — including when
every entry is untrusted — verify fails with NoValidSignature, while
Unsigned is raised exactly when the entry list is empty. -/
theorem Signature.verify_untrusted_semantics (sig : Signature) (payload : List Nat)
    (secret : String) (opts : VerifySignatureOptions) (dateNow : Int)
    (htol : ¬ (opts.ignoreTolerance = false
        ∧ opts.now.getD dateNow - sig.timestamp > opts.tolerance.getD 300 * 1000)) :
    (sig.signatureObjects ≠ [] →
        (∀ s ∈ sig.signatureObjects,
            (∀ u ∈ opts.untrustedSchemes.getD [], u.version ≠ s.scheme.version) →
            s.value ≠ s.scheme.sign sig.timestamp payload secret) →
        Signature.verify sig payload secret opts dateNow = .error "no valid signature")
    ∧ (∀ (u : SignatureObject) (rest : List SignatureObject),
        (∃ w ∈ opts.untrustedSchemes.getD [], w.version = u.scheme.version) →
        Signature.verifyLoop (opts.untrustedSchemes.getD []) payload secret sig.timestamp
            (u :: rest)
          = Signature.verifyLoop (opts.untrustedSchemes.getD []) payload secret sig.timestamp
            rest)
    ∧ (sig.signatureObjects = [] →
        Signature.verify sig payload secret opts dateNow = .error "payload not signed")
    ∧ (Signature.verify sig payload secret opts dateNow = .error "payload not signed" →
        sig.signatureObjects = []) := by
  have hdef : DEFAULT_SIGNATURE_TOLERANCE = 300 := rfl
  refine ⟨?_, ?_, ?_, ?_⟩
  · intro hne hnomatch
    rw [Signature.verify, hdef, if_neg htol, if_neg (by simpa using hne)]
    exact Signature.verifyLoop_no_match sig.signatureObjects hnomatch
  · intro u rest hu
    exact Signature.verifyLoop_skip rest hu
  · intro hempty
    rw [Signature.verify, hdef, if_neg htol, if_pos (by simp [hempty])]
  · intro h
    by_cases hempty : sig.signatureObjects = []
    · exact hempty
    · rw [Signature.verify, hdef, if_neg htol, if_neg (by simpa using hempty)] at h
      have := Signature.verifyLoop_error h
      exact absurd this (by decide)

/-- Claim C8 (witness): an envelope whose second entry would match but is
untrusted, and whose first entry is trusted but does not match, fails
with NoValidSignature. -/
theorem Signature.verify_untrusted_semantics_witness :
    Signature.verify ⟨5, [⟨testSchemeV1, "bad"⟩, ⟨testSchemeTwo, "two.5.s"⟩]⟩ [] "s"
        ⟨none, true, none, some [testSchemeTwo]⟩ 0 = .error "no valid signature" :=
  (Signature.verify_untrusted_semantics ⟨5, [⟨testSchemeV1, "bad"⟩, ⟨testSchemeTwo, "two.5.s"⟩]⟩
      [] "s" ⟨none, true, none, some [testSchemeTwo]⟩ 0 (by simp)).1
    (by simp) (by decide)

lemma flatMap_map_length {α β γ : Type} (f : α → β → γ) (xs : List α) (ys : List β) :
    (xs.flatMap fun a => ys.map (f a)).length = xs.length * ys.length := by
  induction xs with
  | nil => simp
  | cons a xs ih =>
    rw [List.flatMap_cons, List.length_append, List.length_map, ih, List.length_cons,
      Nat.succ_mul]
    exact Nat.add_comm _ _

lemma flatMap_map_getElem {α β γ : Type} (f : α → β → γ) (xs : List α) (ys : List β) :
    ∀ (i j : Nat), (hi : i < xs.length) → (hj : j < ys.length) →
      (xs.flatMap fun a => ys.map (f a))[i * ys.length + j]? = some (f xs[i] ys[j]) := by
  induction xs with
  | nil => intro i j hi _; exact absurd hi (by simp)
  | cons a xs ih =>
    intro i j hi hj
    cases i with
    | zero =>
      have h0 : 0 * ys.length + j = j := by omega
      rw [List.flatMap_cons, h0, List.getElem?_append,
        if_pos (by rw [List.length_map]; exact hj)]
      rw [List.getElem?_map, List.getElem?_eq_getElem hj]
      simp
    | succ i =>
      rw [List.flatMap_cons, List.getElem?_append_right (by
        rw [List.length_map]
        calc ys.length ≤ ys.length + (i * ys.length + j) := by omega
          _ = (i + 1) * ys.length + j := by ring)]
      rw [List.length_map]
      have hidx : (i + 1) * ys.length + j - ys.length = i * ys.length + j := by
        have : (i + 1) * ys.length = i * ys.length + ys.length := by ring
        omega
      rw [hidx, ih i j (by simpa using hi) hj]
      simp

/-- Claim C4: createSignature produces exactly |schemes| times |secrets|
entries, ordered as the Cartesian product with schemes as the outer loop
and secrets as the inner loop: the entry at index i * |secrets| + j is
the one signed with scheme i and secret j. -/
theorem Signature.createSignature_cartesian (registry : Registry) (ts : Int)
    (payload : List Nat) (secrets : List String) (schemes : List SignatureScheme) :
    ((Signature.createSignature registry ⟨ts, payload, secrets, some schemes⟩).signatureObjects.length
        = schemes.length * secrets.length)
    ∧ ∀ (i j : Nat), (hi : i < schemes.length) → (hj : j < secrets.length) →
        (Signature.createSignature registry
            ⟨ts, payload, secrets, some schemes⟩).signatureObjects[i * secrets.length + j]?
          = some (SignatureObject.createSignatureObject schemes[i] ts payload secrets[j]) := by
  constructor
  · exact flatMap_map_length _ schemes secrets
  · intro i j hi hj
    exact flatMap_map_getElem
      (fun scheme secret => SignatureObject.createSignatureObject scheme ts payload secret)
      schemes secrets i j hi hj

/-- Claim C4 (witness): two schemes and two secrets give exactly four
entries, and the entry at index 1 * 2 + 0 = 2 is scheme two with the
first secret. -/
theorem Signature.createSignature_cartesian_witness :
    ((Signature.createSignature [testSchemeV1]
        ⟨7, [], [ "s1", "s2"], some [testSchemeV1, testSchemeTwo]⟩).signatureObjects.length = 4)
    ∧ (Signature.createSignature [testSchemeV1]
        ⟨7, [], [ "s1", "s2"], some [testSchemeV1, testSchemeTwo]⟩).signatureObjects[2]?
      = some (SignatureObject.createSignatureObject testSchemeTwo 7 [] "s1") := by
  constructor
  · exact (Signature.createSignature_cartesian [testSchemeV1] 7 [] [ "s1", "s2"]
      [testSchemeV1, testSchemeTwo]).1
  · exact (Signature.createSignature_cartesian [testSchemeV1] 7 [] [ "s1", "s2"]
      [testSchemeV1, testSchemeTwo]).2 1 0 (by decide) (by decide)

/-- Claim C3 (counterexample): an envelope built by createSignature with
a positive timestamp, one secret and a scheme that is registered (it is
the whole registry) whose sign output contains a comma serializes to
t=1,v1=a,b, whose parse fails — so no parsed envelope exists, let alone
an equal one. -/
theorem Signature.parse_toString_roundtrip_counterexample :
    Signature.parse [commaScheme]
        (Signature.toString (Signature.createSignature [commaScheme] ⟨1, [], [ "s"], none⟩))
      = Except.error "invalid signature" := rfl

lemma SignatureObject.parse_toString (registry : Registry) (o : SignatureObject)
    (hval : '=' ∉ o.value.data) (hver : o.scheme.version ≠ 0)
    (s2 : SignatureScheme) (hfind : Schemes.find registry o.scheme.version = some s2) :
    SignatureObject.parse registry (SignatureObject.toString o) = .ok ⟨s2, o.value⟩ := by
  have hg : '=' ∉ ( 'v' :: intToChars o.scheme.version) := by
    intro hm
    rcases List.mem_cons.mp hm with h | h
    · exact absurd h (by decide)
    · exact not_mem_intToChars (by decide) (by decide) _ h
  have hsplit : splitOnChar '=' (SignatureObject.toString o).data
      = [ 'v' :: intToChars o.scheme.version, o.value.data] := by
    show splitOnChar '='
        (( 'v' :: intToChars o.scheme.version) ++ '=' :: o.value.data) = _
    rw [splitOnChar_append_sep _ hg, splitOnChar_of_not_mem hval]
  simp only [SignatureObject.parse, hsplit, removeFirstChar_cons_self,
    parseIntJS_intToChars]
  simp only [ne_eq, not_true_eq_false, if_false, reduceIte, hver, hfind]

lemma Signature.parseStep_tpair (registry : Registry) (acc : List SignatureObject) (ts : Int)
    (hts : ts ≠ 0) :
    Signature.parseStep registry ((none : Option Int), acc) ( 't' :: '=' :: intToChars ts)
      = .ok (some ts, acc) := by
  have hsplit : splitOnChar '=' ( 't' :: '=' :: intToChars ts) = [[ 't' ], intToChars ts] := by
    have h1 : ([ 't' ] : List Char) ++ '=' :: intToChars ts = 't' :: '=' :: intToChars ts := rfl
    rw [← h1, splitOnChar_append_sep _ (by decide),
      splitOnChar_of_not_mem (not_mem_intToChars (by decide) (by decide) ts)]
  simp [Signature.parseStep, hsplit, jsTruthyIntOpt, parseIntJS_intToChars, hts]

lemma foldlM_parseStep_rendered (registry : Registry) :
    ∀ (objs : List SignatureObject) (acc : List SignatureObject) (ts0 : Int),
      (∀ o ∈ objs, '=' ∉ o.value.data ∧ o.scheme.version ≠ 0
          ∧ ∃ s2, Schemes.find registry o.scheme.version = some s2) →
      ∃ objs2 : List SignatureObject,
        (objs.map fun o => (SignatureObject.toString o).data).foldlM
            (Signature.parseStep registry) (some ts0, acc) = Except.ok (some ts0, acc ++ objs2)
        ∧ (objs2.map fun o => (SignatureObject.toString o).data)
            = (objs.map fun o => (SignatureObject.toString o).data) := by
  intro objs
  induction objs with
  | nil =>
    intro acc ts0 _
    exact ⟨[], by rw [List.append_nil]; rfl, rfl⟩
  | cons o os ih =>
    intro acc ts0 h
    obtain ⟨hval, hver, s2, hfind⟩ := h o (List.mem_cons_self o os)
    have hparse : SignatureObject.parse registry (SignatureObject.toString o) = .ok ⟨s2, o.value⟩ :=
      SignatureObject.parse_toString registry o hval hver s2 hfind
    have hstep : Signature.parseStep registry (some ts0, acc) (SignatureObject.toString o).data
        = .ok (some ts0, acc ++ [⟨s2, o.value⟩]) :=
      Signature.parseStep_entry registry (some ts0, acc) (SignatureObject.toString o).data
        ⟨s2, o.value⟩ hparse
    obtain ⟨rest2, hfold2, hmap2⟩ :=
      ih (acc ++ [⟨s2, o.value⟩]) ts0 (fun q hq => h q (List.mem_cons_of_mem o hq))
    refine ⟨⟨s2, o.value⟩ :: rest2, ?_, ?_⟩
    · rw [List.map_cons, List.foldlM_cons, hstep]
      rw [List.append_assoc] at hfold2
      exact hfold2
    · have hv2 : s2.version = o.scheme.version := Schemes.find_version hfind
      rw [List.map_cons, List.map_cons, hmap2]
      have hhead : (SignatureObject.toString ⟨s2, o.value⟩).data
          = (SignatureObject.toString o).data := by
        simp [SignatureObject.toString, hv2]
      rw [hhead]

lemma Signature.parse_toString_of_entries (registry : Registry) (ts : Int)
    (objs : List SignatureObject) (hts : 0 < ts)
    (hprops : ∀ o ∈ objs, ',' ∉ o.value.data ∧ '=' ∉ o.value.data ∧ o.scheme.version ≠ 0
        ∧ ∃ s2, Schemes.find registry o.scheme.version = some s2) :
    ∃ E2, Signature.parse registry (Signature.toString ⟨ts, objs⟩) = .ok E2
      ∧ Signature.equals E2 ⟨ts, objs⟩ = true := by
  have hcommafree : ∀ g ∈ (( 't' :: '=' :: intToChars ts)
      :: objs.map (fun o => (SignatureObject.toString o).data)), ',' ∉ g := by
    intro g hg
    rcases List.mem_cons.mp hg with rfl | hg2
    · intro hm
      rcases List.mem_cons.mp hm with h | h
      · exact absurd h (by decide)
      rcases List.mem_cons.mp h with h | h
      · exact absurd h (by decide)
      · exact not_mem_intToChars (by decide) (by decide) ts h
    · obtain ⟨o, ho, rfl⟩ := List.mem_map.mp hg2
      intro hm
      have hrepr : (SignatureObject.toString o).data
          = 'v' :: (intToChars o.scheme.version ++ '=' :: o.value.data) := rfl
      rw [hrepr] at hm
      rcases List.mem_cons.mp hm with h | h
      · exact absurd h (by decide)
      rcases List.mem_append.mp h with h | h
      · exact not_mem_intToChars (by decide) (by decide) _ h
      rcases List.mem_cons.mp h with h | h
      · exact absurd h (by decide)
      · exact (hprops o ho).1 h
  have hsplitpairs : splitOnChar ',' (Signature.toString ⟨ts, objs⟩).data
      = ( 't' :: '=' :: intToChars ts)
        :: objs.map (fun o => (SignatureObject.toString o).data) := by
    show splitOnChar ',' (joinWith ',' (( 't' :: '=' :: intToChars ts)
        :: objs.map (fun o => (SignatureObject.toString o).data))) = _
    exact splitOnChar_joinWith hcommafree (by simp)
  obtain ⟨objs2, hfold, hmap⟩ := foldlM_parseStep_rendered registry objs [] ts
    (fun o ho => ⟨(hprops o ho).2.1, (hprops o ho).2.2.1, (hprops o ho).2.2.2⟩)
  have htstep := Signature.parseStep_tpair registry [] ts (by omega)
  have hfoldall : ((( 't' :: '=' :: intToChars ts)
      :: objs.map (fun o => (SignatureObject.toString o).data)).foldlM
        (Signature.parseStep registry) ((none : Option Int), ([] : List SignatureObject)))
      = Except.ok ((some ts : Option Int), objs2) := by
    rw [List.foldlM_cons, htstep]
    show (objs.map (fun o => (SignatureObject.toString o).data)).foldlM
        (Signature.parseStep registry) (some ts, ([] : List SignatureObject)) = _
    rw [hfold, List.nil_append]
  refine ⟨⟨ts, objs2⟩, ?_, ?_⟩
  · rw [Signature.parse, hsplitpairs, hfoldall]
    show (if ts = 0 then Except.error "missing timestamp"
        else (Except.ok ⟨ts, objs2⟩ : Except String Signature)) = Except.ok ⟨ts, objs2⟩
    rw [if_neg (by omega)]
  · have htext : Signature.toString ⟨ts, objs2⟩ = Signature.toString ⟨ts, objs⟩ := by
      show String.mk (joinWith ',' (( 't' :: '=' :: intToChars ts)
          :: objs2.map (fun o => (SignatureObject.toString o).data)))
        = String.mk (joinWith ',' (( 't' :: '=' :: intToChars ts)
          :: objs.map (fun o => (SignatureObject.toString o).data)))
      rw [hmap]
    rw [Signature.equals_eq_toString, htext]
    exact beq_self_eq_true _

/-- Claim C3 (amended): for every envelope built by createSignature from
a positive timestamp, a payload, secrets, and schemes registered in the
registry, parsing the serialized form round-trips to an equal envelope —
provided additionally that every scheme version is nonzero and no
produced signature value contains a comma or an equals sign (the
counterexample shows a registered scheme violating the latter breaks the
round trip; the built-in hex-emitting scheme satisfies both). -/
theorem Signature.parse_toString_roundtrip (registry : Registry) (ts : Int) (payload : List Nat)
    (secrets : List String) (schemes : List SignatureScheme)
    (hts : 0 < ts)
    (hreg : ∀ scheme ∈ schemes, ∃ s2, Schemes.find registry scheme.version = some s2)
    (hver : ∀ scheme ∈ schemes, scheme.version ≠ 0)
    (hsafe : ∀ scheme ∈ schemes, ∀ secret ∈ secrets,
        ',' ∉ (scheme.sign ts payload secret).data ∧ '=' ∉ (scheme.sign ts payload secret).data) :
    ∃ E2, Signature.parse registry
        (Signature.toString
          (Signature.createSignature registry ⟨ts, payload, secrets, some schemes⟩)) = .ok E2
      ∧ Signature.equals E2
          (Signature.createSignature registry ⟨ts, payload, secrets, some schemes⟩) = true := by
  have hprops : ∀ o ∈ (schemes.flatMap fun scheme => secrets.map fun secret =>
        SignatureObject.createSignatureObject scheme ts payload secret),
      ',' ∉ o.value.data ∧ '=' ∉ o.value.data ∧ o.scheme.version ≠ 0
      ∧ ∃ s2, Schemes.find registry o.scheme.version = some s2 := by
    intro o ho
    obtain ⟨scheme, hscheme, ho2⟩ := List.mem_flatMap.mp ho
    obtain ⟨secret, hsecret, rfl⟩ := List.mem_map.mp ho2
    exact ⟨(hsafe scheme hscheme secret hsecret).1, (hsafe scheme hscheme secret hsecret).2,
      hver scheme hscheme, hreg scheme hscheme⟩
  exact Signature.parse_toString_of_entries registry ts _ hts hprops

/-- Claim C3 (witness): the amended round trip at a concrete registry,
scheme, timestamp and secret whose signature value is wire-safe. -/
theorem Signature.parse_toString_roundtrip_witness :
    ∃ E2, Signature.parse [testSchemeV1]
        (Signature.toString
          (Signature.createSignature [testSchemeV1] ⟨1, [], [ "s"], some [testSchemeV1]⟩)) = .ok E2
      ∧ Signature.equals E2
          (Signature.createSignature [testSchemeV1] ⟨1, [], [ "s"], some [testSchemeV1]⟩) = true := by
  apply Signature.parse_toString_roundtrip [testSchemeV1] 1 [] [ "s"] [testSchemeV1] (by decide)
  · intro scheme hscheme
    rcases List.mem_singleton.mp hscheme with rfl
    exact ⟨testSchemeV1, rfl⟩
  · intro scheme hscheme
    rcases List.mem_singleton.mp hscheme with rfl
    decide
  · intro scheme hscheme secret hsecret
    rcases List.mem_singleton.mp hscheme with rfl
    rcases List.mem_singleton.mp hsecret with rfl
    exact ⟨by decide, by decide⟩
